import Mathlib

/-!
# Verification of the market-resolution and trade-execution core

Shallow embedding, in Lean 4, of the core logic of the sports-wagering
client: the odds conversions and bet executor of `src/lib/betUtils.ts`,
and the market cache / multi-network aggregator / featured-market picker
of `src/lib/overtimeApi.ts` (the version whose `getActiveMarkets`,
`findMarketsFromAllNetworks`, `getMarketsForNetwork` and `getBigGame`
are re-exported together with `betUtils.placeBet`).

Modelling conventions:
* JavaScript numbers are modelled as `ℚ` (the arithmetic the claims are
  about is exact on the rationals used); `Math.round` is modelled as
  `⌊x + 1/2⌋`, which is the ECMAScript semantics (round half toward +∞).
* Every `await`ed external interaction is an `Except String` value carried
  in an environment record; a JavaScript `throw`/rejection is the
  `.error` case, and the surrounding `try/catch` of `placeBet` is the
  conversion of that `.error` into a `{ success := false }` result.
* Calls to the settlement-token (USDC) and market-maker (AMM) contracts
  are recorded in an ordered trace, so "zero contract calls" and
  "approval precedes trade" are statable.
-/

namespace Claudesports

/-- One market record, with the fields the core logic reads
(`src/lib/overtimeApi.ts`, `interface Market`).  `networkId` is
`Option ℕ` so that the defensive `market.networkId || 8453` of
`betUtils.ts` (which also treats `0` as absent) can be modelled. -/
structure Market where
  address : String
  gameId : String
  sport : String
  homeTeam : String
  awayTeam : String
  maturity : Int
  status : Nat
  homeOdds : ℚ
  awayOdds : ℚ
  drawOdds : ℚ
  networkId : Option Nat
deriving DecidableEq, Repr

/-- JavaScript `v || d` on a possibly-undefined numeric field:
`undefined` and `0` are falsy, any other number is returned as is. -/
def jsOrDefault (v : Option Nat) (d : Nat) : Nat :=
  match v with
  | none => d
  | some 0 => d
  | some n => n

/-- JavaScript `Math.round`: round half toward positive infinity,
`Math.round x = ⌊x + 0.5⌋`. -/
def jsRound (x : ℚ) : Int :=
  ⌊x + 1 / 2⌋

/-- The term `americanToDecimal` from `src/lib/betUtils.ts`:
`if (americanOdds > 0) return 1 + americanOdds / 100;
 else return 1 + 100 / Math.abs(americanOdds);`.
(At `a = 0` JavaScript divides by zero and yields `Infinity`; in `ℚ`
division by zero yields `0`; no claim touches `a = 0`.) -/
def americanToDecimal (americanOdds : ℚ) : ℚ :=
  if americanOdds > 0 then
    1 + americanOdds / 100
  else
    1 + 100 / |americanOdds|

/-- The term `decimalToAmerican` from `src/lib/betUtils.ts`:
`if (decimalOdds >= 2) return Math.round((decimalOdds - 1) * 100);
 else return Math.round(-100 / (decimalOdds - 1));`.
(At `d = 1` JavaScript divides by zero; no claim touches `d ≤ 1`.) -/
def decimalToAmerican (decimalOdds : ℚ) : Int :=
  if decimalOdds ≥ 2 then
    jsRound ((decimalOdds - 1) * 100)
  else
    jsRound (-100 / (decimalOdds - 1))

/-- The term `calculateWinAmount` from `src/lib/betUtils.ts`. -/
def calculateWinAmount (betAmount : ℚ) (odds : ℚ) : ℚ :=
  betAmount * odds

/-! ## Market cache and multi-network aggregation (`src/lib/overtimeApi.ts`) -/

/-- The term `NETWORK_IDS` from `src/lib/overtimeApi.ts`. -/
def NETWORK_IDS_OPTIMISM : Nat := 10

/-- The term `NETWORK_IDS.ARBITRUM`. -/
def NETWORK_IDS_ARBITRUM : Nat := 42161

/-- The term `NETWORK_IDS.BASE`. -/
def NETWORK_IDS_BASE : Nat := 8453

/-- The module-level `marketsCache` record:
`{ timestamp: number; markets: Market[]; networkId: number }`. -/
structure MarketsCache where
  timestamp : Int
  markets : List Market
  networkId : Nat
deriving DecidableEq, Repr

/-- The term `CACHE_EXPIRATION = 5 * 60 * 1000` (milliseconds). -/
def CACHE_EXPIRATION : Int := 5 * 60 * 1000

/-- The cache-use condition of `getActiveMarkets`:
`marketsCache.markets.length > 0 && now - marketsCache.timestamp < CACHE_EXPIRATION`. -/
def cacheUsable (cache : MarketsCache) (now : Int) : Bool :=
  0 < cache.markets.length ∧ now - cache.timestamp < CACHE_EXPIRATION

/-- A fetch oracle gives, for each network id, the outcome of the
market-data request issued by `getMarketsForNetwork`: `none` when the
request (direct and via proxy) rejects, `some ms` for a parsed,
flattened market list. -/
def FetchOracle : Type := Nat → Option (List Market)

/-- The term `getMarketsForNetwork` from `src/lib/overtimeApi.ts`: the whole body
is wrapped in `try { ... } catch { return [] }`, so a failing fetch is
observed as an empty list. -/
def getMarketsForNetwork (fetch : FetchOracle) (networkId : Nat) : List Market :=
  match fetch networkId with
  | none => []
  | some ms => ms

/-- The priority order of `findMarketsFromAllNetworks`:
`const networks = [NETWORK_IDS.BASE, NETWORK_IDS.OPTIMISM, NETWORK_IDS.ARBITRUM]`. -/
def candidateNetworks : List Nat :=
  [NETWORK_IDS_BASE, NETWORK_IDS_OPTIMISM, NETWORK_IDS_ARBITRUM]

/-- The `for (const networkId of networks)` loop of
`findMarketsFromAllNetworks`, instrumented with the ordered list of
network ids actually queried.  Returns
`(queried networks, markets, networkId)`; when every network yields an
empty (or failing) result the loop falls through to
`return { markets: [], networkId: NETWORK_IDS.BASE }`. -/
def findMarketsAux (fetch : FetchOracle) : List Nat → List Nat × List Market × Nat
  | [] => ([], [], NETWORK_IDS_BASE)
  | networkId :: rest =>
    let ms := getMarketsForNetwork fetch networkId
    if 0 < ms.length then
      ([networkId], ms, networkId)
    else
      let r := findMarketsAux fetch rest
      (networkId :: r.1, r.2)

/-- The term `findMarketsFromAllNetworks` from `src/lib/overtimeApi.ts`,
instrumented with the list of queried networks. -/
def findMarketsFromAllNetworks (fetch : FetchOracle) : List Nat × List Market × Nat :=
  findMarketsAux fetch candidateNetworks

/-- The term `getActiveMarkets` from `src/lib/overtimeApi.ts` as a state
transition on the module-level cache.  `fetchResult` is the value
`findMarketsFromAllNetworks` would produce on this pass (markets and
winning network id).  Returns the market list handed to the caller, the
cache after the call, and whether a refresh pass ran. -/
def getActiveMarkets (cache : MarketsCache) (now : Int)
    (fetchResult : List Market × Nat) : List Market × MarketsCache × Bool :=
  if cacheUsable cache now then
    (cache.markets, cache, false)
  else
    (fetchResult.1, ⟨now, fetchResult.1, fetchResult.2⟩, true)

/-- A sequence of `getActiveMarkets()` calls: each element carries the
wall-clock time of the call and the refresh-pass result an actual fetch
would produce at that moment.  Returns the per-call results, the final
cache, and how many refresh passes (external fetch sequences) ran. -/
def runCalls (cache : MarketsCache) :
    List (Int × List Market × Nat) → List (List Market) × MarketsCache × Nat
  | [] => ([], cache, 0)
  | (now, fetchResult) :: rest =>
    let r := getActiveMarkets cache now fetchResult
    let rs := runCalls r.2.1 rest
    (r.1 :: rs.1, rs.2.1, (if r.2.2 then 1 else 0) + rs.2.2)

/-! ## Featured-market selection (`getBigGame` in `src/lib/overtimeApi.ts`) -/

/-- The comparator passed to `Array.prototype.sort` inside `getBigGame`
(negative means `a` sorts before `b`):
`statusDiff = (a.status || 0) - (b.status || 0)` first, then
`timeToGameA > 0 && timeToGameB <= 0` puts future games before
already-started ones, then ascending `timeToGame`. -/
def marketCmp (now : Int) (a b : Market) : Int :=
  if (a.status : Int) - (b.status : Int) ≠ 0 then (a.status : Int) - (b.status : Int)
  else if 0 < a.maturity - now ∧ b.maturity - now ≤ 0 then -1
  else if a.maturity - now ≤ 0 ∧ 0 < b.maturity - now then 1
  else (a.maturity - now) - (b.maturity - now)

/-- The term `[...markets].sort(cmp)[0]` for a stable sort with the consistent
comparator `marketCmp`: the first element of the list that is minimal
under the comparator.  The fold keeps the earlier element on ties,
which is exactly what index 0 of a stable sort holds. -/
def sortTop (now : Int) (m : Market) (ms : List Market) : Market :=
  ms.foldl (fun best x => if marketCmp now x best < 0 then x else best) m

/-- The term `getBigGame` from `src/lib/overtimeApi.ts`, as a function of the
market list returned by `getActiveMarkets()` and the current time `now`
(in seconds, `Math.floor(Date.now() / 1000)`): `null` on an empty list,
otherwise `sortedMarkets[0]`. -/
def getBigGame (markets : List Market) (now : Int) : Option Market :=
  match markets with
  | [] => none
  | m :: ms => some (sortTop now m ms)

/-- The lexicographic key realised by `marketCmp`: status ascending,
then "already started" after "not yet started", then time-to-game
ascending.  `keyLE now a b` iff `a` sorts no later than `b`. -/
def keyLE (now : Int) (a b : Market) : Prop :=
  (a.status : Int) < b.status ∨
    (a.status = b.status ∧
      ((0 < a.maturity - now ∧ b.maturity - now ≤ 0) ∨
        (((0 < a.maturity - now ∧ 0 < b.maturity - now) ∨
            (a.maturity - now ≤ 0 ∧ b.maturity - now ≤ 0)) ∧
          a.maturity ≤ b.maturity)))

instance (now : Int) (a b : Market) : Decidable (keyLE now a b) := by
  unfold keyLE; infer_instance

/-! ## Trade execution (`placeBet` in `src/lib/betUtils.ts`) -/

/-- Contract addresses selected by the `switch (networkId)` statement of
`placeBet` in `src/lib/betUtils.ts`. -/
structure ContractAddresses where
  USDC : String
  OVERTIME_AMM : String
  SPORT_MARKETS_MANAGER : String
deriving DecidableEq, Repr

/-- The Base (8453) branch of the `switch`. -/
def baseAddresses : ContractAddresses :=
  { USDC := "0x833589fCD6eDb6E08f4c7C32D4f71b54bdA02913"
    OVERTIME_AMM := "0x80903Aa4d358542652c8D4B33cd942EA1Bf8fd41"
    SPORT_MARKETS_MANAGER := "0x3Ed830e92eFfE68C0d1216B2b5115B1bceBB087C" }

/-- The Optimism (10) branch of the `switch`. -/
def optimismAddresses : ContractAddresses :=
  { USDC := "0x7F5c764cBc14f9669B88837ca1490cCa17c31607"
    OVERTIME_AMM := "0xad41C77d99E282267C1492cdEFe528D7d5044253"
    SPORT_MARKETS_MANAGER := "0x8606926e4c3Cfb9d4B6742A62e1923854F4026dc" }

/-- The Arbitrum (42161) branch of the `switch`. -/
def arbitrumAddresses : ContractAddresses :=
  { USDC := "0xFF970A61A04b1cA14834A43f5dE4533eBDDB5CC8"
    OVERTIME_AMM := "0x82872A82E70081D42f5c2610259324Bb463B2bC2"
    SPORT_MARKETS_MANAGER := "0xb3E8C659CF95BeA8c81d8D06407C5c7A2D75B1BC" }

/-- The `switch (networkId)` of `placeBet`: `none` is the `default`
branch, which throws `Unsupported network`. -/
def contractAddressesFor (networkId : Nat) : Option ContractAddresses :=
  if networkId = 8453 then some baseAddresses
  else if networkId = 10 then some optimismAddresses
  else if networkId = 42161 then some arbitrumAddresses
  else none

/-- One recorded call to the settlement-token (USDC) or market-maker
(AMM) contract, plus a `quoteRequest` constructor for a QuoteService
request (which `betUtils.placeBet` never issues). -/
inductive ExtCall where
  | balanceOf (owner : String)
  | approve (spender : String) (amount : ℚ)
  | trade (marketAddress : String) (position : Nat) (amount : ℚ)
      (minPayout : ℚ) (collateral : String)
  | quoteRequest
deriving DecidableEq, Repr

/-- Outcomes of the external interactions `placeBet` awaits, in program
order.  `.error msg` models the corresponding `await` throwing (wallet
rejection, revert, timeout, unreachable endpoint); the message is what
the `catch` block stringifies.  `allowance` is the caller's current
spending authorization for the AMM and `quote` the behaviour of the
quoting endpoint — both are part of the world `placeBet` runs in, and
the source of `betUtils.ts` never reads either. -/
structure BetEnv where
  providerConnected : Bool
  signer : Except String String
  chainId : Except String Nat
  checksumAddress : Except String String
  balance : Except String ℚ
  allowance : ℚ
  quote : Except String ℚ
  approveSend : Except String Unit
  approveWait : Except String Unit
  tradeSend : Except String Unit
  tradeWait : Except String String

/-- The term `{ success: boolean; message: string; txHash?: string }`. -/
structure TradeResult where
  success : Bool
  message : String
  txHash : Option String
deriving DecidableEq, Repr

/-- The `catch` block of `placeBet`:
`return { success: false, message: Error: ... }`. -/
def betFail (msg : String) : TradeResult :=
  { success := false, message := "Error: " ++ msg, txHash := none }

/-- The term `placeBet` from `src/lib/betUtils.ts`, step for step, returning the
`TradeResult` together with the ordered trace of settlement-token and
market-maker contract calls.  `amount` is the stake in USDC (the
`parseFloat(amount)` value); `amountInWei = amount * 10^6` models
`ethers.parseUnits(amount, 6)`; the balance is compared in wei units as
in the source. -/
def placeBet (market : Market) (amount : ℚ) (position : Nat) (env : BetEnv) :
    TradeResult × List ExtCall :=
  if ¬ env.providerConnected then (betFail "Wallet not connected", [])
  else
    let networkId := jsOrDefault market.networkId 8453
    match env.signer with
    | .error e => (betFail e, [])
    | .ok signerAddress =>
      match env.chainId with
      | .error e => (betFail e, [])
      | .ok chainId =>
        if chainId ≠ networkId then
          (betFail "Please switch to the correct network to place this bet", [])
        else
          match contractAddressesFor networkId with
          | none => (betFail ("Unsupported network: " ++ toString networkId), [])
          | some contractAddresses =>
            match env.checksumAddress with
            | .error e => (betFail e, [])
            | .ok checksummedMarketAddress =>
              let amountInWei := amount * 1000000
              match env.balance with
              | .error e => (betFail e, [.balanceOf signerAddress])
              | .ok balance =>
                if balance < amountInWei then
                  (betFail ("Insufficient USDC balance. You have " ++
                      toString (balance / 1000000) ++ " USDC but need " ++
                      toString amount ++ " USDC."),
                    [.balanceOf signerAddress])
                else
                  let expectedPayout := amount *
                    (if position = 0 then market.homeOdds else market.awayOdds)
                  let slippageAdjustedPayout := expectedPayout * (95 / 100)
                  let approveCall : ExtCall :=
                    .approve contractAddresses.OVERTIME_AMM amountInWei
                  match env.approveSend with
                  | .error e => (betFail e, [.balanceOf signerAddress, approveCall])
                  | .ok _ =>
                    match env.approveWait with
                    | .error e => (betFail e, [.balanceOf signerAddress, approveCall])
                    | .ok _ =>
                      let tradeCall : ExtCall :=
                        .trade checksummedMarketAddress position amountInWei
                          (slippageAdjustedPayout * 1000000) contractAddresses.USDC
                      match env.tradeSend with
                      | .error e =>
                        (betFail e, [.balanceOf signerAddress, approveCall, tradeCall])
                      | .ok _ =>
                        match env.tradeWait with
                        | .error e =>
                          (betFail e, [.balanceOf signerAddress, approveCall, tradeCall])
                        | .ok receiptHash =>
                          ({ success := true, message := "Bet placed successfully!",
                              txHash := some receiptHash },
                            [.balanceOf signerAddress, approveCall, tradeCall])

/-- All external steps of `placeBet` succeeding, with a sufficient
balance, on the market's (defaulted) network. -/
def betStepsOk (market : Market) (amount : ℚ) (env : BetEnv) : Bool :=
  env.providerConnected &&
  env.signer.toOption.isSome &&
  (match env.chainId with
    | .ok c => decide (c = jsOrDefault market.networkId 8453)
    | .error _ => false) &&
  (contractAddressesFor (jsOrDefault market.networkId 8453)).isSome &&
  env.checksumAddress.toOption.isSome &&
  (match env.balance with
    | .ok b => decide (¬ b < amount * 1000000)
    | .error _ => false) &&
  env.approveSend.toOption.isSome &&
  env.approveWait.toOption.isSome &&
  env.tradeSend.toOption.isSome &&
  env.tradeWait.toOption.isSome

/-! ## Concrete sample data for witnesses and counterexamples -/

/-- A market record with the given address, status code and maturity;
the other fields carry fixed representative values. -/
def sampleMarket (addr : String) (status : Nat) (maturity : Int) : Market :=
  { address := addr
    gameId := "game-" ++ addr
    sport := "Soccer"
    homeTeam := "Home"
    awayTeam := "Away"
    maturity := maturity
    status := status
    homeOdds := 2
    awayOdds := 3
    drawOdds := 0
    networkId := some 8453 }

/-- Two open markets on the second-priority network. -/
def marketsOnB : List Market :=
  [sampleMarket "0xb1" 0 2000, sampleMarket "0xb2" 0 2100]

/-- Five open markets on the third-priority network. -/
def marketsOnC : List Market :=
  [sampleMarket "0xc1" 0 2000, sampleMarket "0xc2" 0 2100,
    sampleMarket "0xc3" 0 2200, sampleMarket "0xc4" 0 2300,
    sampleMarket "0xc5" 0 2400]

/-- The fetch oracle of the spec's three-network scenario: the
first-priority network (Base) yields zero markets, the second
(Optimism) two, the third (Arbitrum) five. -/
def fetchABC : FetchOracle := fun n =>
  if n = NETWORK_IDS_BASE then some []
  else if n = NETWORK_IDS_OPTIMISM then some marketsOnB
  else if n = NETWORK_IDS_ARBITRUM then some marketsOnC
  else none

/-- A fetch oracle on which every request rejects. -/
def fetchAllFail : FetchOracle := fun _ => none

/-- An open market already underway for 500 time units at `now = 1000`. -/
def underwayEarly : Market := sampleMarket "0xearly" 0 500

/-- An open market already underway for 100 time units at `now = 1000`
(the most recently started of the two underway markets). -/
def underwayLate : Market := sampleMarket "0xlate" 0 900

/-- An open market starting 100 time units after `now = 1000`. -/
def futureSoon : Market := sampleMarket "0xsoon" 0 1100

/-- An open market starting 500 time units after `now = 1000`. -/
def futureLate : Market := sampleMarket "0xlater" 0 1500

/-- A non-open (resolved) market: status code 3, maturing sooner than
`futureLate`. -/
def resolvedEarly : Market := sampleMarket "0xresolved" 3 1100

/-- A market on Base used for trade-executor scenarios. -/
def baseMarket : Market := sampleMarket "0xbase" 0 2000

/-- The term `baseMarket` with `networkId` absent (`undefined` in JavaScript). -/
def noNetworkMarket : Market :=
  { baseMarket with address := "0xnoNet", networkId := none }

/-- The term `baseMarket` with `networkId = 0` (falsy in JavaScript). -/
def zeroNetworkMarket : Market :=
  { baseMarket with address := "0xzeroNet", networkId := some 0 }

/-- An environment in which every external interaction of `placeBet`
succeeds: wallet connected on Base, balance 100 USDC (in wei units),
an ample pre-existing allowance, a live quote endpoint, and every
transaction mined. -/
def happyEnv : BetEnv :=
  { providerConnected := true
    signer := Except.ok "0xUserAddress"
    chainId := Except.ok 8453
    checksumAddress := Except.ok "0xChecksummedMarket"
    balance := Except.ok 100000000
    allowance := 1000000000000
    quote := Except.ok 2
    approveSend := Except.ok ()
    approveWait := Except.ok ()
    tradeSend := Except.ok ()
    tradeWait := Except.ok "0xTransactionHash" }

/-- The term `happyEnv` but with the wallet attached to chain `c`. -/
def wrongChainEnv (c : Nat) : BetEnv :=
  { happyEnv with chainId := Except.ok c }

/-- The term `happyEnv` but with the quoting endpoint unreachable. -/
def quoteFailEnv : BetEnv :=
  { happyEnv with quote := Except.error "quote endpoint unreachable" }

/-! # Theorems -/

/-- A rational whose denominator is 1 is fixed by JavaScript rounding. -/
lemma jsRound_den_one (q : ℚ) (h : q.den = 1) : (jsRound q : ℚ) = q := by
  have hq : ((q.num : ℚ)) = q := (Rat.den_eq_one_iff q).mp h
  rw [jsRound, ← hq, Int.floor_int_add]
  norm_num

/-- C9, counterexample.  The decimal-to-American transform of
`betUtils.ts` uses `Math.round`, so for `d = 2.125` (where
`(d − 1) × 100 = 112.5`) it returns `113`, not `(d − 1) × 100`, and
`americanToDecimal` maps `113` to `2.13`, not back to `2.125`: the
conversions are not lossless on all decimals `≥ 2.0`. -/
theorem odds_conversion_counterexample :
    (2 : ℚ) ≤ 17 / 8 ∧
      (decimalToAmerican (17 / 8) : ℚ) ≠ (17 / 8 - 1) * 100 ∧
      americanToDecimal ((decimalToAmerican (17 / 8) : ℤ) : ℚ) ≠ 17 / 8 := by
  refine ⟨by norm_num, ?_, ?_⟩
  · norm_num [decimalToAmerican, jsRound]
  · norm_num [decimalToAmerican, jsRound, americanToDecimal]

/-- C9, amended.  `decimalToAmerican` applies the standard transforms
and then rounds to the nearest integer (JavaScript `Math.round`); the
transforms are exact, and `americanToDecimal` inverts
`decimalToAmerican`, exactly when the transform value is already an
integer (denominator 1).  In particular `1.5 ↦ −200 ↦ 1.5` and
`3.0 ↦ +200 ↦ 3.0`. -/
theorem odds_conversion_roundtrip (d : ℚ) :
    (2 ≤ d → ((d - 1) * 100).den = 1 →
      (decimalToAmerican d : ℚ) = (d - 1) * 100 ∧
        americanToDecimal ((decimalToAmerican d : ℤ) : ℚ) = d) ∧
    (1 < d → d < 2 → (100 / (d - 1)).den = 1 →
      (decimalToAmerican d : ℚ) = -(100 / (d - 1)) ∧
        americanToDecimal ((decimalToAmerican d : ℤ) : ℚ) = d) ∧
    decimalToAmerican (3 / 2) = -200 ∧ decimalToAmerican 3 = 200 ∧
    americanToDecimal ((decimalToAmerican (3 / 2) : ℤ) : ℚ) = 3 / 2 ∧
    americanToDecimal ((decimalToAmerican 3 : ℤ) : ℚ) = 3 := by
  refine ⟨?_, ?_, ?_, ?_, ?_, ?_⟩
  · intro hd hden
    have hval : (decimalToAmerican d : ℚ) = (d - 1) * 100 := by
      rw [decimalToAmerican, if_pos hd, jsRound_den_one _ hden]
    refine ⟨hval, ?_⟩
    rw [americanToDecimal, if_pos (by rw [hval]; nlinarith), hval]
    ring
  · intro h1 h2 hden
    have hd1 : (0 : ℚ) < d - 1 := by linarith
    have hpos : (0 : ℚ) < 100 / (d - 1) := by positivity
    have hneg : (-100 : ℚ) / (d - 1) = -(100 / (d - 1)) := by ring
    have hden' : ((-100 : ℚ) / (d - 1)).den = 1 := by rw [hneg, Rat.neg_den]; exact hden
    have hval : (decimalToAmerican d : ℚ) = -(100 / (d - 1)) := by
      rw [decimalToAmerican, if_neg (by linarith), jsRound_den_one _ hden', hneg]
    refine ⟨hval, ?_⟩
    rw [americanToDecimal, if_neg (by rw [hval]; linarith), hval, abs_neg,
      abs_of_pos hpos]
    field_simp
  · norm_num [decimalToAmerican, jsRound]
  · norm_num [decimalToAmerican, jsRound]
  · norm_num [decimalToAmerican, jsRound, americanToDecimal]
  · norm_num [decimalToAmerican, jsRound, americanToDecimal]

/-- Witness for `odds_conversion_roundtrip` at `d = 5/2`. -/
theorem odds_conversion_roundtrip_witness :
    (2 : ℚ) ≤ 5 / 2 ∧ (((5 : ℚ) / 2 - 1) * 100).den = 1 ∧
      ((decimalToAmerican (5 / 2) : ℚ) = ((5 : ℚ) / 2 - 1) * 100 ∧
        americanToDecimal ((decimalToAmerican (5 / 2) : ℤ) : ℚ) = 5 / 2) := by
  have h1 : (2 : ℚ) ≤ 5 / 2 := by norm_num
  have h2 : (((5 : ℚ) / 2 - 1) * 100).den = 1 := by norm_num
  exact ⟨h1, h2, (odds_conversion_roundtrip (5 / 2)).1 h1 h2⟩

/-- While the cache holds a non-empty list fetched at `t0`, every call
within the freshness window is served from the cache: no fetch, the same
list every time, cache unchanged. -/
lemma runCalls_fresh (t0 : Int) (L : List Market) (nid : Nat) (hL : L ≠ [])
    (calls : List (Int × List Market × Nat))
    (htimes : ∀ p ∈ calls, p.1 - t0 < CACHE_EXPIRATION) :
    runCalls ⟨t0, L, nid⟩ calls = (calls.map fun _ => L, ⟨t0, L, nid⟩, 0) := by
  induction calls with
  | nil => rfl
  | cons p rest ih =>
    obtain ⟨t, fr⟩ := p
    have ht : t - t0 < CACHE_EXPIRATION := htimes (t, fr) (List.mem_cons_self _ _)
    have hfresh : cacheUsable ⟨t0, L, nid⟩ t = true := by
      simp [cacheUsable, ht, List.length_pos, hL]
    simp only [runCalls, getActiveMarkets, hfresh, if_true]
    rw [ih fun q hq => htimes q (List.mem_cons_of_mem _ hq)]
    simp

/-- C2.  For a sequence of `getActiveMarkets()` calls in which the first
call (at time `t0`, on a cache the source deems unusable) successfully
fetches a non-empty list `L`, and every later call happens within
`CACHE_EXPIRATION` of `t0`: exactly one refresh pass runs over the whole
sequence (so the external market-data endpoint is hit by that one pass
only), every call returns the same list `L`, and the cache ends as the
entry written by the first call. -/
theorem cache_single_fetch (c0 : MarketsCache) (t0 : Int) (L : List Market)
    (nid : Nat) (rest : List (Int × List Market × Nat))
    (hstale : cacheUsable c0 t0 = false) (hL : L ≠ [])
    (htimes : ∀ p ∈ rest, p.1 - t0 < CACHE_EXPIRATION) :
    runCalls c0 ((t0, (L, nid)) :: rest) =
      (L :: rest.map (fun _ => L), ⟨t0, L, nid⟩, 1) := by
  simp only [runCalls, getActiveMarkets, hstale, Bool.false_eq_true, if_false]
  rw [runCalls_fresh t0 L nid hL rest htimes]
  simp

/-- Witness for `cache_single_fetch`: three calls, the first at
`t = 1000000` fetching two markets from network 10, the later two inside
the five-minute window; one fetch pass, identical results. -/
theorem cache_single_fetch_witness :
    runCalls ⟨0, [], 8453⟩
        [(1000000, (marketsOnB, 10)), (1000001, ([], 0)),
          (1200000, (marketsOnC, 42161))] =
      ([marketsOnB, marketsOnB, marketsOnB], ⟨1000000, marketsOnB, 10⟩, 1) := by
  have h := cache_single_fetch ⟨0, [], 8453⟩ 1000000 marketsOnB 10
      [(1000001, ([], 0)), (1200000, (marketsOnC, 42161))] (by decide)
      (by simp [marketsOnB]) (by decide)
  simpa using h

/-- C3.  On a refresh pass the candidate networks are queried one at a
time in the fixed order Base, Optimism, Arbitrum; a failing fetch is
treated as an empty list; the pass stops at and returns exactly the
first non-empty list, and later networks are never queried; and
`getActiveMarkets` hands that list to the caller unchanged. -/
theorem aggregator_first_nonempty (fetch : FetchOracle) :
    (∀ n, fetch n = none → getMarketsForNetwork fetch n = []) ∧
    (getMarketsForNetwork fetch NETWORK_IDS_BASE ≠ [] →
      findMarketsFromAllNetworks fetch =
        ([NETWORK_IDS_BASE], getMarketsForNetwork fetch NETWORK_IDS_BASE,
          NETWORK_IDS_BASE)) ∧
    (getMarketsForNetwork fetch NETWORK_IDS_BASE = [] →
      getMarketsForNetwork fetch NETWORK_IDS_OPTIMISM ≠ [] →
      findMarketsFromAllNetworks fetch =
        ([NETWORK_IDS_BASE, NETWORK_IDS_OPTIMISM],
          getMarketsForNetwork fetch NETWORK_IDS_OPTIMISM, NETWORK_IDS_OPTIMISM) ∧
        NETWORK_IDS_ARBITRUM ∉ (findMarketsFromAllNetworks fetch).1) ∧
    (getMarketsForNetwork fetch NETWORK_IDS_BASE = [] →
      getMarketsForNetwork fetch NETWORK_IDS_OPTIMISM = [] →
      getMarketsForNetwork fetch NETWORK_IDS_ARBITRUM ≠ [] →
      findMarketsFromAllNetworks fetch =
        ([NETWORK_IDS_BASE, NETWORK_IDS_OPTIMISM, NETWORK_IDS_ARBITRUM],
          getMarketsForNetwork fetch NETWORK_IDS_ARBITRUM, NETWORK_IDS_ARBITRUM)) ∧
    (∀ c now, cacheUsable c now = false →
      (getActiveMarkets c now (findMarketsFromAllNetworks fetch).2).1 =
        (findMarketsFromAllNetworks fetch).2.1) := by
  refine ⟨?_, ?_, ?_, ?_, ?_⟩
  · intro n h
    simp [getMarketsForNetwork, h]
  · intro h1
    simp only [NETWORK_IDS_BASE] at h1 ⊢
    simp [findMarketsFromAllNetworks, candidateNetworks, findMarketsAux,
      NETWORK_IDS_BASE, NETWORK_IDS_OPTIMISM, NETWORK_IDS_ARBITRUM,
      List.length_pos.mpr h1]
  · intro h1 h2
    simp only [NETWORK_IDS_BASE] at h1
    simp only [NETWORK_IDS_OPTIMISM] at h2
    simp [findMarketsFromAllNetworks, candidateNetworks, findMarketsAux,
      NETWORK_IDS_BASE, NETWORK_IDS_OPTIMISM, NETWORK_IDS_ARBITRUM,
      h1, List.length_pos.mpr h2]
  · intro h1 h2 h3
    simp only [NETWORK_IDS_BASE] at h1
    simp only [NETWORK_IDS_OPTIMISM] at h2
    simp only [NETWORK_IDS_ARBITRUM] at h3
    simp [findMarketsFromAllNetworks, candidateNetworks, findMarketsAux,
      NETWORK_IDS_BASE, NETWORK_IDS_OPTIMISM, NETWORK_IDS_ARBITRUM,
      h1, h2, List.length_pos.mpr h3]
  · intro c now hstale
    simp [getActiveMarkets, hstale]

/-- Witness for `aggregator_first_nonempty`: the spec's scenario — Base
yields zero markets, Optimism two, Arbitrum five; the pass returns
exactly Optimism's two markets and Arbitrum is never queried. -/
theorem aggregator_first_nonempty_witness :
    getMarketsForNetwork fetchABC NETWORK_IDS_BASE = [] ∧
    getMarketsForNetwork fetchABC NETWORK_IDS_OPTIMISM = marketsOnB ∧
    marketsOnB.length = 2 ∧
    (findMarketsFromAllNetworks fetchABC =
        ([NETWORK_IDS_BASE, NETWORK_IDS_OPTIMISM], marketsOnB,
          NETWORK_IDS_OPTIMISM) ∧
      NETWORK_IDS_ARBITRUM ∉ (findMarketsFromAllNetworks fetchABC).1) := by
  have h1 : getMarketsForNetwork fetchABC NETWORK_IDS_BASE = [] := by
    simp [getMarketsForNetwork, fetchABC]
  have h2 : getMarketsForNetwork fetchABC NETWORK_IDS_OPTIMISM = marketsOnB := by
    simp [getMarketsForNetwork, fetchABC, NETWORK_IDS_OPTIMISM, NETWORK_IDS_BASE]
  have h3 := (aggregator_first_nonempty fetchABC).2.2.1 h1
    (by rw [h2]; simp [marketsOnB])
  rw [h2] at h3
  exact ⟨h1, h2, by simp [marketsOnB], h3⟩

/-- C4.  When every candidate network yields a failing request or an
empty list, the refresh pass queries all three networks and produces the
empty list, `getActiveMarkets` surfaces the `NoMarketsAvailable`
condition to the caller as that empty list (the code's encoding of the
failure), and `getBigGame` consequently reports `none` (`null`). -/
theorem all_networks_empty (fetch : FetchOracle) (c : MarketsCache)
    (now now2 : Int)
    (hempty : ∀ n ∈ candidateNetworks, fetch n = none ∨ fetch n = some [])
    (hstale : cacheUsable c now = false) :
    findMarketsFromAllNetworks fetch =
      ([NETWORK_IDS_BASE, NETWORK_IDS_OPTIMISM, NETWORK_IDS_ARBITRUM], [],
        NETWORK_IDS_BASE) ∧
    (getActiveMarkets c now (findMarketsFromAllNetworks fetch).2).1 = [] ∧
    getBigGame (getActiveMarkets c now (findMarketsFromAllNetworks fetch).2).1
      now2 = none := by
  have hn : ∀ n ∈ candidateNetworks, getMarketsForNetwork fetch n = [] := by
    intro n hm
    rcases hempty n hm with h | h <;> simp [getMarketsForNetwork, h]
  have h1 := hn NETWORK_IDS_BASE (by simp [candidateNetworks])
  have h2 := hn NETWORK_IDS_OPTIMISM (by simp [candidateNetworks])
  have h3 := hn NETWORK_IDS_ARBITRUM (by simp [candidateNetworks])
  have hfind : findMarketsFromAllNetworks fetch =
      ([NETWORK_IDS_BASE, NETWORK_IDS_OPTIMISM, NETWORK_IDS_ARBITRUM], [],
        NETWORK_IDS_BASE) := by
    simp [findMarketsFromAllNetworks, candidateNetworks, findMarketsAux, h1, h2, h3]
  refine ⟨hfind, ?_, ?_⟩ <;> simp [hfind, getActiveMarkets, hstale, getBigGame]

/-- Witness for `all_networks_empty`: every request rejects. -/
theorem all_networks_empty_witness :
    findMarketsFromAllNetworks fetchAllFail =
      ([NETWORK_IDS_BASE, NETWORK_IDS_OPTIMISM, NETWORK_IDS_ARBITRUM], [],
        NETWORK_IDS_BASE) ∧
    (getActiveMarkets ⟨0, [], 8453⟩ 400000
        (findMarketsFromAllNetworks fetchAllFail).2).1 = [] ∧
    getBigGame (getActiveMarkets ⟨0, [], 8453⟩ 400000
        (findMarketsFromAllNetworks fetchAllFail).2).1 500 = none :=
  all_networks_empty fetchAllFail ⟨0, [], 8453⟩ 400000 500
    (fun n _ => Or.inl rfl) (by decide)

/-- The term `keyLE` is reflexive. -/
lemma keyLE_refl (now : Int) (a : Market) : keyLE now a a := by
  unfold keyLE; omega

/-- The term `keyLE` is transitive. -/
lemma keyLE_trans (now : Int) (a b c : Market) (h1 : keyLE now a b)
    (h2 : keyLE now b c) : keyLE now a c := by
  unfold keyLE at h1 h2 ⊢; omega

/-- A strictly negative comparator value implies the lexicographic key
order. -/
lemma marketCmp_lt_keyLE (now : Int) (a b : Market)
    (h : marketCmp now a b < 0) : keyLE now a b := by
  unfold marketCmp at h
  unfold keyLE
  split_ifs at h <;> omega

/-- A non-negative comparator value implies the reverse key order. -/
lemma marketCmp_not_lt_keyLE (now : Int) (a b : Market)
    (h : ¬ marketCmp now a b < 0) : keyLE now b a := by
  unfold marketCmp at h
  unfold keyLE
  split_ifs at h <;> omega

/-- The term `sortedMarkets[0]` is an element of the input that is minimal under
the comparator's key order. -/
lemma sortTop_spec (now : Int) (ms : List Market) (m : Market) :
    (sortTop now m ms = m ∨ sortTop now m ms ∈ ms) ∧
      keyLE now (sortTop now m ms) m ∧
      ∀ x ∈ ms, keyLE now (sortTop now m ms) x := by
  induction ms generalizing m with
  | nil => exact ⟨Or.inl rfl, keyLE_refl now m, by simp⟩
  | cons y t ih =>
    by_cases hc : marketCmp now y m < 0
    · have hstep : sortTop now m (y :: t) = sortTop now y t := by
        simp [sortTop, hc]
      obtain ⟨hmem, hacc, hall⟩ := ih y
      rw [hstep]
      refine ⟨?_, ?_, ?_⟩
      · rcases hmem with h | h
        · exact Or.inr (by rw [h]; exact List.mem_cons_self y t)
        · exact Or.inr (List.mem_cons_of_mem y h)
      · exact keyLE_trans now _ y m hacc (marketCmp_lt_keyLE now y m hc)
      · intro x hx
        rcases List.mem_cons.mp hx with rfl | hx
        · exact hacc
        · exact hall x hx
    · have hstep : sortTop now m (y :: t) = sortTop now m t := by
        simp [sortTop, hc]
      obtain ⟨hmem, hacc, hall⟩ := ih m
      rw [hstep]
      refine ⟨?_, hacc, ?_⟩
      · rcases hmem with h | h
        · exact Or.inl h
        · exact Or.inr (List.mem_cons_of_mem y h)
      intro x hx
      rcases List.mem_cons.mp hx with rfl | hx
      · exact keyLE_trans now _ m x hacc (marketCmp_not_lt_keyLE now x m hc)
      · exact hall x hx

/-- C5, amended.  Whenever `getBigGame` selects a market `m` from a
non-empty list, `m` is minimal under the comparator's lexicographic
order `keyLE`: lowest numeric status first (open = 0 before any
higher-coded status), then markets not yet started before markets
already underway, then soonest maturity among the not-yet-started — but
among equal-status markets already underway the EARLIEST-started (most
negative time-to-start) wins, not the most recently started.  The spec's
two examples hold: of two open future markets maturing at `T+100` and
`T+500` the `T+100` one is returned, and an open market beats a resolved
one regardless of maturity order. -/
theorem bigGame_selection (now : Int) (ms : List Market) (m : Market)
    (h : getBigGame ms now = some m) :
    (m ∈ ms ∧ ∀ x ∈ ms, keyLE now m x) ∧
    getBigGame [futureLate, futureSoon] 1000 = some futureSoon ∧
    getBigGame [resolvedEarly, futureLate] 1000 = some futureLate := by
  refine ⟨?_, ?_, ?_⟩
  · match ms, h with
    | m0 :: t, h =>
      have hm : m = sortTop now m0 t := by
        simpa [getBigGame] using h.symm
      obtain ⟨hmem, hacc, hall⟩ := sortTop_spec now t m0
      subst hm
      refine ⟨?_, ?_⟩
      · rcases hmem with h | h
        · rw [h]; exact List.mem_cons_self m0 t
        · exact List.mem_cons_of_mem m0 h
      · intro x hx
        rcases List.mem_cons.mp hx with rfl | hx
        · exact hacc
        · exact hall x hx
  · simp [getBigGame, sortTop, marketCmp, futureLate, futureSoon, sampleMarket]
  · simp [getBigGame, sortTop, marketCmp, resolvedEarly, futureLate, sampleMarket]

/-- Witness for `bigGame_selection` at the concrete two-market list. -/
theorem bigGame_selection_witness :
    futureSoon ∈ [futureLate, futureSoon] :=
  ((bigGame_selection 1000 [futureLate, futureSoon] futureSoon
    (by simp [getBigGame, sortTop, marketCmp, futureLate, futureSoon,
      sampleMarket])).1).1

/-- C5, counterexample.  Two open markets already underway at
`now = 1000`: one started 500 time units ago (`maturity 500`), one only
100 time units ago (`maturity 900`).  The claim says `getBigGame`
returns the most recently started (`maturity 900`); the code sorts by
ascending `maturity - now` and returns the earliest-started
(`maturity 500`). -/
theorem bigGame_counterexample :
    underwayEarly.status = underwayLate.status ∧
    underwayEarly.maturity - 1000 ≤ 0 ∧ underwayLate.maturity - 1000 ≤ 0 ∧
    underwayEarly.maturity < underwayLate.maturity ∧
    getBigGame [underwayLate, underwayEarly] 1000 = some underwayEarly ∧
    underwayEarly ≠ underwayLate := by
  refine ⟨rfl, by decide, by decide, by decide, ?_, ?_⟩
  · simp [getBigGame, sortTop, marketCmp, underwayEarly, underwayLate, sampleMarket]
  · simp [underwayEarly, underwayLate, sampleMarket]

/-- The term `betUtils.placeBet` never reads the quoting endpoint: its result and
trace are unchanged under any replacement of the environment's quote
behaviour.  The proof is `rfl` because the definition never projects
`quote`. -/
lemma placeBet_quote_irrelevant (m : Market) (amt : ℚ) (pos : Nat) (env : BetEnv)
    (q' : Except String ℚ) :
    placeBet m amt pos { env with quote := q' } = placeBet m amt pos env := rfl

/-- The term `betUtils.placeBet` never reads the caller's existing spending
authorization: its result and trace are unchanged under any replacement
of the allowance. -/
lemma placeBet_allowance_irrelevant (m : Market) (amt : ℚ) (pos : Nat)
    (env : BetEnv) (q' : ℚ) :
    placeBet m amt pos { env with allowance := q' } = placeBet m amt pos env := rfl

/-- The trace of contract calls made by `placeBet` is always a prefix of
balance-check, approval for exactly the stake, then the trade call whose
minimum payout is computed from the market's stored odds; a quote request
never appears. -/
lemma placeBet_trace_shape (m : Market) (amt : ℚ) (pos : Nat) (env : BetEnv) :
    (placeBet m amt pos env).2 = [] ∨
    (∃ s, env.signer = Except.ok s ∧
      ((placeBet m amt pos env).2 = [ExtCall.balanceOf s] ∨
        (∃ ca, contractAddressesFor (jsOrDefault m.networkId 8453) = some ca ∧
          ((placeBet m amt pos env).2 =
              [ExtCall.balanceOf s,
                ExtCall.approve ca.OVERTIME_AMM (amt * 1000000)] ∨
            (∃ addr, env.checksumAddress = Except.ok addr ∧
              env.approveSend = Except.ok () ∧ env.approveWait = Except.ok () ∧
              (placeBet m amt pos env).2 =
                [ExtCall.balanceOf s,
                  ExtCall.approve ca.OVERTIME_AMM (amt * 1000000),
                  ExtCall.trade addr pos (amt * 1000000)
                    (amt * (if pos = 0 then m.homeOdds else m.awayOdds) *
                      (95 / 100) * 1000000)
                    ca.USDC]))))) := by
  unfold placeBet
  cases hpc : env.providerConnected with
  | false => simp
  | true =>
    cases hsg : env.signer with
    | error e => simp
    | ok s =>
      cases hci : env.chainId with
      | error e => simp
      | ok c =>
        by_cases hc : c = jsOrDefault m.networkId 8453
        case neg => simp [hc]
        case pos =>
          cases hca : contractAddressesFor (jsOrDefault m.networkId 8453) with
          | none => simp [hc, hca]
          | some ca =>
            cases hcs : env.checksumAddress with
            | error e => simp [hc, hca, hcs]
            | ok addr =>
              cases hb : env.balance with
              | error e => simp [hc, hca, hcs, hb]
              | ok b =>
                by_cases hlt : b < amt * 1000000
                case pos => simp [hc, hca, hcs, hb, hlt]
                case neg =>
                  cases has : env.approveSend with
                  | error e => simp [hc, hca, hcs, hb, hlt, has]
                  | ok u1 =>
                    cases haw : env.approveWait with
                    | error e => simp [hc, hca, hcs, hb, hlt, has, haw]
                    | ok u2 =>
                      cases hts : env.tradeSend with
                      | error e => simp [hc, hca, hcs, hb, hlt, has, haw, hts]
                      | ok u3 =>
                        cases htw : env.tradeWait with
                        | error e => simp [hc, hca, hcs, hb, hlt, has, haw, hts, htw]
                        | ok h => simp [hc, hca, hcs, hb, hlt, has, haw, hts, htw]

/-- C8.  `placeBet` never throws past its boundary (it is a total
function into `TradeResult`, every external failure being converted by
the catch-all): it returns `success = true` exactly when every external
step succeeded — wallet connected, signer obtained, wallet chain equal
to the market's (defaulted) network, supported network, checksummed
address, sufficient balance, approval submitted and mined, trade
submitted and confirmed — in which case the transaction hash is the
confirmation receipt's hash; on any failure it reports
`success = false` with no transaction hash. -/
theorem placeBet_total_result (m : Market) (amt : ℚ) (pos : Nat) (env : BetEnv) :
    ((placeBet m amt pos env).1.success = true ↔ betStepsOk m amt env = true) ∧
    ((placeBet m amt pos env).1.success = true →
      (placeBet m amt pos env).1.message = "Bet placed successfully!" ∧
      (placeBet m amt pos env).1.txHash = env.tradeWait.toOption) ∧
    ((placeBet m amt pos env).1.success = false →
      (placeBet m amt pos env).1.txHash = none) := by
  unfold placeBet
  cases hpc : env.providerConnected with
  | false => simp [betStepsOk, betFail, Except.toOption, Option.isSome, hpc]
  | true =>
    cases hsg : env.signer with
    | error e => simp [betStepsOk, betFail, Except.toOption, Option.isSome, hpc, hsg]
    | ok s =>
      cases hci : env.chainId with
      | error e => simp [betStepsOk, betFail, Except.toOption, Option.isSome, hpc, hsg, hci]
      | ok c =>
        by_cases hc : c = jsOrDefault m.networkId 8453
        case neg => simp [betStepsOk, betFail, Except.toOption, Option.isSome, hpc, hsg, hci, hc]
        case pos =>
          cases hca : contractAddressesFor (jsOrDefault m.networkId 8453) with
          | none => simp [betStepsOk, betFail, Except.toOption, Option.isSome, hpc, hsg, hci, hc, hca]
          | some ca =>
            cases hcs : env.checksumAddress with
            | error e => simp [betStepsOk, betFail, Except.toOption, Option.isSome, hpc, hsg, hci, hc, hca, hcs]
            | ok addr =>
              cases hb : env.balance with
              | error e => simp [betStepsOk, betFail, Except.toOption, Option.isSome, hpc, hsg, hci, hc, hca, hcs, hb]
              | ok b =>
                by_cases hlt : b < amt * 1000000
                case pos =>
                  simp [betStepsOk, betFail, Except.toOption, Option.isSome, hpc, hsg, hci, hc, hca, hcs, hb, hlt]
                case neg =>
                  cases has : env.approveSend with
                  | error e =>
                    simp [betStepsOk, betFail, Except.toOption, Option.isSome, hpc, hsg, hci, hc, hca, hcs, hb, hlt,
                      has]
                  | ok u1 =>
                    cases haw : env.approveWait with
                    | error e =>
                      simp [betStepsOk, betFail, Except.toOption, Option.isSome, hpc, hsg, hci, hc, hca, hcs, hb,
                        hlt, has, haw]
                    | ok u2 =>
                      cases hts : env.tradeSend with
                      | error e =>
                        simp [betStepsOk, betFail, Except.toOption, Option.isSome, hpc, hsg, hci, hc, hca, hcs, hb,
                          hlt, has, haw, hts]
                      | ok u3 =>
                        cases htw : env.tradeWait with
                        | error e =>
                          simp [betStepsOk, betFail, Except.toOption, Option.isSome, hpc, hsg, hci, hc, hca, hcs,
                            hb, hlt, has, haw, hts, htw]
                        | ok h =>
                          simp [betStepsOk, betFail, Except.toOption, Option.isSome, hpc, hsg, hci, hc, hca, hcs,
                            hb, hlt, has, haw, hts, htw]

/-- Witness for `placeBet_total_result` on the all-steps-succeed
environment. -/
theorem placeBet_total_result_witness :
    (placeBet baseMarket 10 0 happyEnv).1.message = "Bet placed successfully!" ∧
    (placeBet baseMarket 10 0 happyEnv).1.txHash = happyEnv.tradeWait.toOption :=
  (placeBet_total_result baseMarket 10 0 happyEnv).2.1 (by
    simp [placeBet, happyEnv, baseMarket, sampleMarket, jsOrDefault,
      contractAddressesFor]
    norm_num)

/-- C6, amended.  When the wallet reports a chain different from the
market's (defaulted) network id, `placeBet` returns `success = false`
with the constant message
`"Please switch to the correct network to place this bet"` — a message
that names neither the required nor the wallet's current network — and
makes zero calls to the settlement-token or market-maker contracts
(empty trace). -/
theorem networkMismatch_behavior (m : Market) (amt : ℚ) (pos : Nat) (env : BetEnv)
    (s : String) (c : Nat)
    (hprov : env.providerConnected = true)
    (hsig : env.signer = Except.ok s)
    (hchain : env.chainId = Except.ok c)
    (hne : c ≠ jsOrDefault m.networkId 8453) :
    placeBet m amt pos env =
      (betFail "Please switch to the correct network to place this bet", []) := by
  simp [placeBet, hprov, hsig, hchain, hne]

/-- Witness for `networkMismatch_behavior`: wallet on Optimism (10),
market on Base (8453). -/
theorem networkMismatch_behavior_witness :
    placeBet baseMarket 10 0 (wrongChainEnv 10) =
      (betFail "Please switch to the correct network to place this bet", []) :=
  networkMismatch_behavior baseMarket 10 0 (wrongChainEnv 10) "0xUserAddress" 10
    rfl rfl rfl (by simp [baseMarket, sampleMarket, jsOrDefault])

/-- C6, counterexample.  The mismatch failure message is one constant
string: wallets on chain 10 and on chain 42161 receive identical
results against the Base market, so the message cannot be naming the
wallet's current network (nor does it contain the required one). -/
theorem networkMismatch_counterexample :
    placeBet baseMarket 10 0 (wrongChainEnv 10) =
      (betFail "Please switch to the correct network to place this bet", []) ∧
    placeBet baseMarket 10 0 (wrongChainEnv 42161) =
      (betFail "Please switch to the correct network to place this bet", []) ∧
    (wrongChainEnv 10).chainId ≠ (wrongChainEnv 42161).chainId ∧
    baseMarket.networkId = some 8453 := by
  refine ⟨?_, ?_, by simp [wrongChainEnv, happyEnv], rfl⟩ <;>
    simp [placeBet, wrongChainEnv, happyEnv, baseMarket, sampleMarket, jsOrDefault]

/-- C1, amended.  `placeBet` obtains no quote at all: its behaviour is
independent of the quoting endpoint, no quote request ever appears in
its trace, and every submitted trade carries a minimum payout computed
locally from the market's stored odds —
`stake × (homeOdds | awayOdds) × 0.95` (in wei units) — with the stake
itself as the buy-in. -/
theorem trade_without_quote (m : Market) (amt : ℚ) (pos : Nat) (env : BetEnv)
    (q' : Except String ℚ) :
    placeBet m amt pos { env with quote := q' } = placeBet m amt pos env ∧
    ExtCall.quoteRequest ∉ (placeBet m amt pos env).2 ∧
    (∀ addr p a mp coll,
      ExtCall.trade addr p a mp coll ∈ (placeBet m amt pos env).2 →
      mp = amt * (if pos = 0 then m.homeOdds else m.awayOdds) * (95 / 100) * 1000000 ∧
      a = amt * 1000000) := by
  refine ⟨placeBet_quote_irrelevant m amt pos env q', ?_, ?_⟩
  · rcases placeBet_trace_shape m amt pos env with h |
      ⟨s, hs, h | ⟨ca, hca, h | ⟨addr, haddr, has, haw, h⟩⟩⟩ <;> rw [h] <;> simp
  · intro addr' p a mp coll hmem
    rcases placeBet_trace_shape m amt pos env with h |
      ⟨s, hs, h | ⟨ca, hca, h | ⟨addr, haddr, has, haw, h⟩⟩⟩ <;> rw [h] at hmem <;>
      simp at hmem
    obtain ⟨h1, h2, h3, h4, h5⟩ := hmem
    refine ⟨?_, h3⟩
    rw [h4]
    split_ifs <;> ring

/-- Witness for `trade_without_quote`: a dead quoting endpoint changes
nothing. -/
theorem trade_without_quote_witness :
    placeBet baseMarket 10 0
        { happyEnv with quote := Except.error "endpoint down" } =
      placeBet baseMarket 10 0 happyEnv :=
  (trade_without_quote baseMarket 10 0 happyEnv (Except.error "endpoint down")).1

/-- C1, counterexample.  With the quoting endpoint unreachable
(`quote = error`), `placeBet` still succeeds and submits the trade
(minimum payout `10 × 2 × 0.95` USDC in wei), never having issued a
quote request: the claimed `QuoteUnavailable` abort does not exist. -/
theorem quote_failure_ignored_counterexample :
    quoteFailEnv.quote = Except.error "quote endpoint unreachable" ∧
    (placeBet baseMarket 10 0 quoteFailEnv).1.success = true ∧
    (placeBet baseMarket 10 0 quoteFailEnv).1.txHash = some "0xTransactionHash" ∧
    ExtCall.quoteRequest ∉ (placeBet baseMarket 10 0 quoteFailEnv).2 ∧
    ExtCall.trade "0xChecksummedMarket" 0 (10 * 1000000)
        (10 * 2 * (95 / 100) * 1000000) baseAddresses.USDC ∈
      (placeBet baseMarket 10 0 quoteFailEnv).2 := by
  have hEval : placeBet baseMarket 10 0 quoteFailEnv =
      ({ success := true, message := "Bet placed successfully!",
          txHash := some "0xTransactionHash" },
        [ExtCall.balanceOf "0xUserAddress",
          ExtCall.approve baseAddresses.OVERTIME_AMM (10 * 1000000),
          ExtCall.trade "0xChecksummedMarket" 0 (10 * 1000000)
            (10 * 2 * (95 / 100) * 1000000) baseAddresses.USDC]) := by
    simp [placeBet, quoteFailEnv, happyEnv, baseMarket, sampleMarket, jsOrDefault,
      contractAddressesFor]
    norm_num
  refine ⟨rfl, ?_, ?_, ?_, ?_⟩ <;> rw [hEval] <;> simp

/-- C7, amended.  The approval step is not conditional on the existing
authorization: `placeBet` never reads the allowance, every approval it
submits is for exactly the stake (`amount × 10^6` wei), and whenever the
trade call occurs the approval was submitted and mined beforehand (the
approve call precedes the trade call in the trace, and both approval
transactions' outcomes were `ok`).  It is never skipped. -/
theorem approval_unconditional (m : Market) (amt : ℚ) (pos : Nat) (env : BetEnv)
    (q' : ℚ) :
    placeBet m amt pos { env with allowance := q' } = placeBet m amt pos env ∧
    (∀ sp a, ExtCall.approve sp a ∈ (placeBet m amt pos env).2 →
      a = amt * 1000000) ∧
    (∀ addr p a mp coll,
      ExtCall.trade addr p a mp coll ∈ (placeBet m amt pos env).2 →
      env.approveSend = Except.ok () ∧ env.approveWait = Except.ok () ∧
      ∃ sp, List.Sublist
        [ExtCall.approve sp (amt * 1000000), ExtCall.trade addr p a mp coll]
        (placeBet m amt pos env).2) := by
  refine ⟨placeBet_allowance_irrelevant m amt pos env q', ?_, ?_⟩
  · intro sp a hmem
    rcases placeBet_trace_shape m amt pos env with h |
      ⟨s, hs, h | ⟨ca, hca, h | ⟨addr, haddr, has, haw, h⟩⟩⟩ <;> rw [h] at hmem <;>
      simp at hmem
    · exact hmem.2
    · exact hmem.2
  · intro addr' p a mp coll hmem
    rcases placeBet_trace_shape m amt pos env with h |
      ⟨s, hs, h | ⟨ca, hca, h | ⟨addr, haddr, has, haw, h⟩⟩⟩ <;> rw [h] at hmem <;>
      simp at hmem
    obtain ⟨h1, h2, h3, h4, h5⟩ := hmem
    refine ⟨has, haw, ca.OVERTIME_AMM, ?_⟩
    rw [h, h1, h2, h3, h5]
    have hif : mp =
        (amt * if pos = 0 then m.homeOdds else m.awayOdds) * (95 / 100) * 1000000 := by
      rw [h4]
      split_ifs <;> ring
    rw [hif]
    exact List.Sublist.cons _ (List.Sublist.refl _)

/-- Witness for `approval_unconditional`: shrinking the pre-existing
allowance to 5 wei changes nothing. -/
theorem approval_unconditional_witness :
    placeBet baseMarket 10 0 { happyEnv with allowance := 5 } =
      placeBet baseMarket 10 0 happyEnv :=
  (approval_unconditional baseMarket 10 0 happyEnv 5).1

/-- C7, counterexample.  With a pre-existing allowance of `10^12` wei —
far above the `10^7`-wei stake — `placeBet` still submits an approval
transaction: the claimed skip on sufficient prior authorization does not
exist in `betUtils.ts`. -/
theorem approval_despite_allowance_counterexample :
    (10 : ℚ) * 1000000 ≤ happyEnv.allowance ∧
    (placeBet baseMarket 10 0 happyEnv).1.success = true ∧
    ExtCall.approve baseAddresses.OVERTIME_AMM (10 * 1000000) ∈
      (placeBet baseMarket 10 0 happyEnv).2 := by
  have hEval : placeBet baseMarket 10 0 happyEnv =
      ({ success := true, message := "Bet placed successfully!",
          txHash := some "0xTransactionHash" },
        [ExtCall.balanceOf "0xUserAddress",
          ExtCall.approve baseAddresses.OVERTIME_AMM (10 * 1000000),
          ExtCall.trade "0xChecksummedMarket" 0 (10 * 1000000)
            (10 * 2 * (95 / 100) * 1000000) baseAddresses.USDC]) := by
    simp [placeBet, happyEnv, baseMarket, sampleMarket, jsOrDefault,
      contractAddressesFor]
    norm_num
  refine ⟨by norm_num [happyEnv], ?_, ?_⟩ <;> rw [hEval] <;> simp

/-- C10.  When `market.networkId` is `undefined` or `0`, `placeBet`
substitutes Base (8453): the network check then demands wallet chain
8453 (failing with the switch-network message otherwise, and making no
contract calls), the `switch` resolves to Base's USDC and market-maker
addresses (so the `Unsupported network` branch is not taken), and every
approval and trade call in the trace targets Base's contracts. -/
theorem default_network_base (m : Market) (amt : ℚ) (pos : Nat) (env : BetEnv)
    (hnet : m.networkId = none ∨ m.networkId = some 0) :
    jsOrDefault m.networkId 8453 = 8453 ∧
    contractAddressesFor (jsOrDefault m.networkId 8453) = some baseAddresses ∧
    (∀ s c, env.providerConnected = true → env.signer = Except.ok s →
      env.chainId = Except.ok c → c ≠ 8453 →
      placeBet m amt pos env =
        (betFail "Please switch to the correct network to place this bet", [])) ∧
    (∀ sp a, ExtCall.approve sp a ∈ (placeBet m amt pos env).2 →
      sp = baseAddresses.OVERTIME_AMM) ∧
    (∀ addr p a mp coll,
      ExtCall.trade addr p a mp coll ∈ (placeBet m amt pos env).2 →
      coll = baseAddresses.USDC) := by
  have hdef : jsOrDefault m.networkId 8453 = 8453 := by
    rcases hnet with h | h <;> simp [jsOrDefault, h]
  have hca : contractAddressesFor (jsOrDefault m.networkId 8453) =
      some baseAddresses := by
    rw [hdef]; rfl
  refine ⟨hdef, hca, ?_, ?_, ?_⟩
  · intro s c hprov hsig hchain hne
    simp [placeBet, hprov, hsig, hchain, hdef, hne]
  · intro sp a hmem
    rcases placeBet_trace_shape m amt pos env with h |
      ⟨s, hs, h | ⟨ca, hca2, h | ⟨addr, haddr, has, haw, h⟩⟩⟩ <;> rw [h] at hmem <;>
      simp at hmem
    · rw [hca] at hca2
      obtain rfl : ca = baseAddresses := by injection hca2.symm
      exact hmem.1
    · rw [hca] at hca2
      obtain rfl : ca = baseAddresses := by injection hca2.symm
      exact hmem.1
  · intro addr' p a mp coll hmem
    rcases placeBet_trace_shape m amt pos env with h |
      ⟨s, hs, h | ⟨ca, hca2, h | ⟨addr, haddr, has, haw, h⟩⟩⟩ <;> rw [h] at hmem <;>
      simp at hmem
    rw [hca] at hca2
    obtain rfl : ca = baseAddresses := by injection hca2.symm
    exact hmem.2.2.2.2

/-- Witness for `default_network_base` on the `undefined` and `0`
network-id markets. -/
theorem default_network_base_witness :
    jsOrDefault noNetworkMarket.networkId 8453 = 8453 ∧
    contractAddressesFor (jsOrDefault noNetworkMarket.networkId 8453) =
      some baseAddresses ∧
    jsOrDefault zeroNetworkMarket.networkId 8453 = 8453 :=
  ⟨(default_network_base noNetworkMarket 10 0 happyEnv (Or.inl rfl)).1,
    (default_network_base noNetworkMarket 10 0 happyEnv (Or.inl rfl)).2.1,
    (default_network_base zeroNetworkMarket 10 0 happyEnv (Or.inr rfl)).1⟩

end Claudesports
